import Mathlib

/-!
Verification of the `tetra` band scanner (`src/main.rs`) against its
natural-language specification.

Shallow embedding choices, stated once here:

* Raw sample bytes are embedded as `ℕ` and `f64` arithmetic as `ℝ`.
  Real captures deliver `u8` values, so `v ≤ 255` appears as an explicit
  validity hypothesis where a claim is about real captures; larger values
  are used only to exercise the qualifying branch of the aggregator,
  which the byte bound makes unreachable on real streams.
* The Capture Adapter (the HackRF device driven by `scan_freq`) is an
  external collaborator; it is modelled as a function giving each
  capture's sample bytes, and in scheduled mode also the capture's cost
  in whole seconds.  `scan_freq` loops until at least the requested
  1-second window has elapsed, so a capture always costs `1 + extra`
  seconds of the scheduled budget.
* The scheduled-mode clock counts whole elapsed seconds since the
  repeating phase started (`scan_start_time`); `Instant::now()
  .duration_since(scan_start_time).as_secs()` is the clock value.
* `serde_json::Value` is modelled by `JVal`, restricted to the shapes
  this program builds (numbers, strings, field-list objects); `HashMap`
  exports are modelled as association lists in insertion order.
-/

open Classical

/-- JSON-like values built by the sweep: the fragment of `serde_json::Value`
this program constructs (numbers, strings, objects as ordered field lists). -/
inductive JVal where
  | num : ℝ → JVal
  | str : String → JVal
  | obj : List (String × JVal) → JVal

/-- Reading a field of an object, as in `detection["tetra_durations"]`:
`none` when the key is missing or the value is not an object. -/
def JVal.getField : JVal → String → Option JVal
  | .obj fields, k => fields.lookup k
  | _, _ => none

/-- Replace the value at key `k` (first occurrence) or append the binding
when the key is missing. -/
def setPairs : List (String × JVal) → String → JVal → List (String × JVal)
  | [], k, v => [(k, v)]
  | (k0, v0) :: rest, k, v =>
      if k0 = k then (k, v) :: rest else (k0, v0) :: setPairs rest k v

/-- Index-assignment on an object, as in `detection["tetra_durations"] = v`. -/
def JVal.setField : JVal → String → JVal → JVal
  | .obj fields, k, v => .obj (setPairs fields k v)
  | j, _, _ => j

/-- Model of `Value::as_str`. -/
def JVal.asStr : JVal → Option String
  | .str s => some s
  | _ => none

/-- Rust `format!` of a range, from the source: the elapsed-time range string
of a single event recorded at whole second `t`. -/
def rangeStr (t : ℕ) : String := toString t ++ "-" ++ toString (t + 1)

/-- Per-sample transform inside `analyze_samples`: byte value `v` maps to
`20 * log10 v` when positive and to `0.0` otherwise. -/
noncomputable def sampleVal (v : ℕ) : ℝ :=
  if (v : ℝ) > 0 then 20 * Real.logb 10 (v : ℝ) else 0

/-- `analyze_samples`: element-wise power estimate of a capture buffer. -/
noncomputable def analyze_samples (samples : List ℕ) : List ℝ :=
  samples.map sampleVal

/-- `iter().max_by(partial_cmp)` over the estimates: `none` on an empty
sequence, otherwise the maximum element. -/
noncomputable def peakOf : List ℝ → Option ℝ
  | [] => none
  | x :: xs => some (xs.foldl max x)

/-- The detection threshold, the literal `49.0` of the source. -/
noncomputable def threshold : ℝ := 49

/-- One capture of the Capture Adapter in scheduled mode: the raw sample
bytes and how many whole seconds beyond the requested 1-second window the
capture took (so the capture costs `1 + extra` seconds). -/
structure CapRes where
  samples : List ℕ
  extra : ℕ
deriving DecidableEq

/-- The scanned band: 380 MHz to 420 MHz inclusive, stepping by 1 MHz
(`(start_freq..=end_freq).step_by(step)`). -/
def band : List ℕ := (List.range 41).map (fun i => 380000000 + i * 1000000)

/-- The `json!` detection record inserted by `run_instant_scan` on a
qualifying event. -/
noncomputable def instDetJ (freq : ℕ) (mx : ℝ) (n : ℕ) : JVal :=
  .obj [("freq", .num ((freq : ℝ) / 1000000)), ("strength", .num mx),
        ("sample_count", .num (n : ℝ))]

/-- The instant-mode placeholder record, with its distinct `max_strength`
field name. -/
def placeholderJ : JVal :=
  .obj [("freq", .num 0), ("max_strength", .num 0), ("sample_count", .num 0)]

/-- The `json!` record pushed by `run_scan_over_duration` when a frequency
first qualifies at whole second `ct`. -/
noncomputable def schedDetJ (freq : ℕ) (mx : ℝ) (n : ℕ) (ct : ℕ) : JVal :=
  .obj [("freq", .num ((freq : ℝ) / 1000000)), ("strength", .num mx),
        ("sample_count", .num (n : ℝ)), ("tetra_durations", .str (rangeStr ct))]

/-- Scheduled-mode loop state: whole seconds elapsed since the repeating
phase began, number of captures performed so far, and the two aggregator
containers `freq_data_vec` and `freq_id_map` of the source. -/
structure SchedState where
  clock : ℕ
  capIdx : ℕ
  freq_data_vec : List JVal
  freq_id_map : List (ℕ × ℕ)

/-- State at `scan_start_time`. -/
def schedInit : SchedState := ⟨0, 0, [], []⟩

/-- The duration-string rewrite applied to the selected record: read
`tetra_durations` as a string (`as_str().unwrap_or("")`), then either start
a fresh range or append `",t-(t+1)"`, and store the result back. -/
def appendDuration (detection : JVal) (ct : ℕ) : JVal :=
  let durations_str := ((detection.getField "tetra_durations").bind JVal.asStr).getD ""
  let new_duration :=
    if durations_str = "" then rangeStr ct
    else durations_str ++ "," ++ rangeStr ct
  detection.setField "tetra_durations" (.str new_duration)

/-- Body of `if max > 49.0` in `run_scan_over_duration`:
`freq_id_map.entry(freq).or_insert_with(push new record)` followed by the
unconditional duration-string rewrite of the record at the chosen index. -/
noncomputable def recordDetection (freq : ℕ) (mx : ℝ) (n : ℕ) (ct : ℕ)
    (st : SchedState) : SchedState :=
  let p :=
    match st.freq_id_map.lookup freq with
    | some idx => (idx, st.freq_data_vec, st.freq_id_map)
    | none => (st.freq_data_vec.length, st.freq_data_vec ++ [schedDetJ freq mx n ct],
               st.freq_id_map ++ [(freq, st.freq_data_vec.length)])
  { st with
    freq_data_vec := p.2.1.set p.1 (appendDuration (p.2.1.getD p.1 (JVal.obj [])) ct),
    freq_id_map := p.2.2 }

/-- One iteration of the scheduled inner `for freq in band` loop: the budget
check before the capture (the `break` is modelled as a skip, equivalent
because the clock never decreases), then capture (advancing the clock by the
capture's cost), analysis, peak extraction and the threshold test; the event
time `current_time` is the clock value after the capture returned. -/
noncomputable def schedStep (env : ℕ → CapRes) (scan_duration : ℕ)
    (st : SchedState) (freq : ℕ) : SchedState :=
  if scan_duration ≤ st.clock then st
  else
    let raw := (env st.capIdx).samples
    let st' : SchedState :=
      { st with clock := st.clock + 1 + (env st.capIdx).extra, capIdx := st.capIdx + 1 }
    match peakOf (analyze_samples raw) with
    | none => st'
    | some mx =>
        if mx > threshold then recordDetection freq mx raw.length st'.clock st' else st'

/-- One full pass of the `for` loop over the band. -/
noncomputable def runPass (env : ℕ → CapRes) (scan_duration : ℕ)
    (st : SchedState) : SchedState :=
  band.foldl (schedStep env scan_duration) st

/-- The scheduled `while` loop: keep running passes while the elapsed time
is below `scan_duration`. -/
noncomputable def runScan (env : ℕ → CapRes) (scan_duration : ℕ)
    (st : SchedState) : SchedState :=
  if h : st.clock < scan_duration then
    runScan env scan_duration (runPass env scan_duration st)
  else st
termination_by scan_duration - st.clock
decreasing_by
  have hrd : ∀ (fr : ℕ) (mx : ℝ) (n ct : ℕ) (s : SchedState),
      (recordDetection fr mx n ct s).clock = s.clock := fun _ _ _ _ _ => rfl
  have hstep : ∀ (f : ℕ) (s : SchedState),
      s.clock ≤ (schedStep env scan_duration s f).clock := by
    intro f s
    unfold schedStep
    split
    · exact le_rfl
    · dsimp only
      split
      · show s.clock ≤ s.clock + 1 + (env s.capIdx).extra
        omega
      · split
        · rw [hrd]
          show s.clock ≤ s.clock + 1 + (env s.capIdx).extra
          omega
        · show s.clock ≤ s.clock + 1 + (env s.capIdx).extra
          omega
  have hstep1 : ∀ (f : ℕ) (s : SchedState), s.clock < scan_duration →
      s.clock < (schedStep env scan_duration s f).clock := by
    intro f s hs
    unfold schedStep
    rw [if_neg (by omega)]
    dsimp only
    split
    · show s.clock < s.clock + 1 + (env s.capIdx).extra
      omega
    · split
      · rw [hrd]
        show s.clock < s.clock + 1 + (env s.capIdx).extra
        omega
      · show s.clock < s.clock + 1 + (env s.capIdx).extra
        omega
  have hfold : ∀ (l : List ℕ) (s : SchedState),
      s.clock ≤ (List.foldl (schedStep env scan_duration) s l).clock := by
    intro l
    induction l with
    | nil => intro s; exact le_rfl
    | cons a t ih =>
        intro s
        rw [List.foldl_cons]
        exact le_trans (hstep a s) (ih _)
  have hband : band = 380000000 :: List.tail band := by decide
  have hlt : st.clock < (runPass env scan_duration st).clock := by
    unfold runPass
    rw [hband, List.foldl_cons]
    exact lt_of_lt_of_le (hstep1 _ st h) (hfold _ _)
  omega

/-- Scheduled-mode export: re-key `freq_data_vec` by first-seen index
(`enumerate`).  The startup countdown (`start_after_duration`) only sleeps
and prints, so it does not appear in the state model. -/
noncomputable def run_scan_over_duration (env : ℕ → CapRes) (scan_duration : ℕ) :
    List (String × JVal) :=
  ((runScan env scan_duration schedInit).freq_data_vec).enum.map
    (fun p => (toString p.1, p.2))

/-- Instant-mode loop state: the results mapping in insertion order and the
`count` counter (which starts at 1). -/
structure InstState where
  results : List (String × JVal)
  count : ℕ

/-- One iteration of the instant `for freq in band` loop. -/
noncomputable def instStep (env : ℕ → List ℕ) (st : InstState) (freq : ℕ) : InstState :=
  let raw := env freq
  match peakOf (analyze_samples raw) with
  | none => st
  | some mx =>
      if mx > threshold then
        { results := st.results ++ [(toString st.count, instDetJ freq mx raw.length)],
          count := st.count + 1 }
      else st

/-- `run_instant_scan`: one pass over the band; afterwards, if the results
mapping is empty, the single placeholder entry is inserted under key `"1"`.
`env` gives the capture's sample bytes for each frequency. -/
noncomputable def run_instant_scan (env : ℕ → List ℕ) : List (String × JVal) :=
  let st := band.foldl (instStep env) ⟨[], 1⟩
  if st.results = [] then [("1", placeholderJ)] else st.results

/-- A capture qualifies (produces a detection event) when its peak estimate
strictly exceeds the threshold. -/
def qualifies (samples : List ℕ) : Prop :=
  ∃ mx, peakOf (analyze_samples samples) = some mx ∧ mx > threshold

/-- Adapter for a one-detection scheduled run: the first capture returns the
single sample value 1000 (estimate 60, qualifying), every other capture is
empty; every capture costs exactly 1 second.  Sample values above 255 cannot
arise from the u8 stream (see the no-detection theorem); they exercise the
qualifying branch, which the byte bound leaves unreachable. -/
def cexEnvA : ℕ → CapRes := fun i => if i = 0 then ⟨[1000], 0⟩ else ⟨[], 0⟩

/-- Adapter for a two-detection scheduled run: capture 0 (frequency 380 MHz,
first pass) returns [1000] (peak 60), capture 41 (the same frequency on the
second pass) returns [10000, 10000] (peak 80, two samples), all other
captures are empty; every capture costs exactly 1 second. -/
def cexEnvB : ℕ → CapRes := fun i =>
  if i = 0 then ⟨[1000], 0⟩ else if i = 41 then ⟨[10000, 10000], 0⟩ else ⟨[], 0⟩

/-- Scheduled adapter whose captures are all empty and cost 1 second. -/
def emptyCapEnv : ℕ → CapRes := fun _ => ⟨[], 0⟩

/-- Instant adapter returning an empty capture for every frequency. -/
def emptyInstEnv : ℕ → List ℕ := fun _ => []

/-- Instant adapter where exactly the first band frequency qualifies. -/
def oneQualInstEnv : ℕ → List ℕ := fun f => if f = 380000000 then [1000] else []

/-- Scheduled adapter whose captures all return [10000] in 1 second. -/
def oneCapEnv : ℕ → CapRes := fun _ => ⟨[10000], 0⟩

/-- A concrete already-aggregated detection record, used to instantiate
general lemmas about subsequent qualifying events. -/
noncomputable def witRec : JVal :=
  JVal.obj [("freq", JVal.num 380), ("strength", JVal.num 60),
            ("sample_count", JVal.num 1), ("tetra_durations", JVal.str "1-2")]

/-- A concrete mid-sweep scheduled state in which frequency 380000000 already
has the record `witRec` at index 0. -/
noncomputable def witState : SchedState := ⟨2, 1, [witRec], [(380000000, 0)]⟩

/-- The record held for 380 MHz after the single qualifying event of
`cexEnvA` (cast-level form, as built by the code). -/
noncomputable def detRecA : JVal :=
  JVal.obj [("freq", JVal.num (((380000000 : ℕ) : ℝ) / 1000000)),
            ("strength", JVal.num (sampleVal 1000)),
            ("sample_count", JVal.num ((1 : ℕ) : ℝ)),
            ("tetra_durations", JVal.str "1-2,1-2")]

/-- The record held for 380 MHz after the two qualifying events of
`cexEnvB` (cast-level form, as built by the code). -/
noncomputable def detRecB : JVal :=
  JVal.obj [("freq", JVal.num (((380000000 : ℕ) : ℝ) / 1000000)),
            ("strength", JVal.num (sampleVal 1000)),
            ("sample_count", JVal.num ((1 : ℕ) : ℝ)),
            ("tetra_durations", JVal.str "1-2,1-2,42-43")]

/-! ### Arithmetic helpers for the power estimate -/

theorem logb_ten_pow (n : ℕ) : Real.logb 10 ((10 : ℝ) ^ n) = n := by
  rw [Real.logb_pow, Real.logb_self_eq_one (by norm_num)]
  ring

theorem sampleVal_eq_pow (v n : ℕ) (h : (v : ℝ) = (10 : ℝ) ^ n) (hv : 0 < v) :
    sampleVal v = 20 * n := by
  unfold sampleVal
  rw [if_pos (by exact_mod_cast hv), h, logb_ten_pow]

theorem sampleVal_100 : sampleVal 100 = 40 := by
  rw [sampleVal_eq_pow 100 2 (by norm_num) (by norm_num)]
  norm_num

theorem sampleVal_1000 : sampleVal 1000 = 60 := by
  rw [sampleVal_eq_pow 1000 3 (by norm_num) (by norm_num)]
  norm_num

theorem sampleVal_10000 : sampleVal 10000 = 80 := by
  rw [sampleVal_eq_pow 10000 4 (by norm_num) (by norm_num)]
  norm_num

theorem twenty_logb_255_lt_49 : 20 * Real.logb 10 255 < 49 := by
  have h255 : ((255 : ℝ)) ^ (20 : ℕ) < (10 : ℝ) ^ (49 : ℕ) := by norm_num
  have hlog : Real.log ((255 : ℝ) ^ (20 : ℕ)) < Real.log ((10 : ℝ) ^ (49 : ℕ)) :=
    Real.log_lt_log (by positivity) h255
  rw [Real.log_pow, Real.log_pow] at hlog
  have h10 : 0 < Real.log 10 := Real.log_pos (by norm_num)
  rw [Real.logb, ← mul_div_assoc, div_lt_iff h10]
  push_cast at hlog
  linarith

theorem sampleVal_le_255 (v : ℕ) (h : v ≤ 255) :
    sampleVal v ≤ 20 * Real.logb 10 255 := by
  unfold sampleVal
  split
  · rename_i hv
    have h1 : Real.logb 10 (v : ℝ) ≤ Real.logb 10 255 :=
      Real.logb_le_logb_of_le (by norm_num) hv (by exact_mod_cast h)
    linarith
  · have : (0 : ℝ) ≤ Real.logb 10 255 := Real.logb_nonneg (by norm_num) (by norm_num)
    linarith

theorem sampleVal_lt_49 (v : ℕ) (h : v ≤ 255) : sampleVal v < 49 :=
  lt_of_le_of_lt (sampleVal_le_255 v h) twenty_logb_255_lt_49

theorem foldl_max_lt (c : ℝ) (l : List ℝ) :
    ∀ x : ℝ, x < c → (∀ y ∈ l, y < c) → List.foldl max x l < c := by
  induction l with
  | nil => intro x hx _; simpa using hx
  | cons a t ih =>
      intro x hx h
      rw [List.foldl_cons]
      exact ih (max x a) (max_lt hx (h a (by simp))) (fun y hy => h y (by simp [hy]))

theorem peak_lt_49 (s : List ℕ) (hs : ∀ v ∈ s, v ≤ 255) (mx : ℝ)
    (hp : peakOf (analyze_samples s) = some mx) : mx < 49 := by
  cases s with
  | nil => simp [analyze_samples, peakOf] at hp
  | cons v vs =>
      have hp2 : some (List.foldl max (sampleVal v) (vs.map sampleVal)) = some mx := by
        simpa [analyze_samples, peakOf] using hp
      have hmx : List.foldl max (sampleVal v) (vs.map sampleVal) = mx :=
        Option.some.inj hp2
      rw [← hmx]
      refine foldl_max_lt 49 (vs.map sampleVal) (sampleVal v)
        (sampleVal_lt_49 v (hs v (by simp))) ?_
      intro y hy
      rcases List.mem_map.1 hy with ⟨u, hu, rfl⟩
      exact sampleVal_lt_49 u (hs u (by simp [hu]))

theorem no_qualify_of_bytes (s : List ℕ) (hs : ∀ v ∈ s, v ≤ 255) : ¬ qualifies s := by
  rintro ⟨mx, hp, hgt⟩
  have := peak_lt_49 s hs mx hp
  rw [threshold] at hgt
  linarith

/-! ### Behaviour of one scheduled step -/

theorem recordDetection_clock (fr : ℕ) (mx : ℝ) (n ct : ℕ) (s : SchedState) :
    (recordDetection fr mx n ct s).clock = s.clock := rfl

theorem recordDetection_capIdx (fr : ℕ) (mx : ℝ) (n ct : ℕ) (s : SchedState) :
    (recordDetection fr mx n ct s).capIdx = s.capIdx := rfl

theorem schedStep_skip (env : ℕ → CapRes) (D : ℕ) (st : SchedState) (f : ℕ)
    (h : D ≤ st.clock) : schedStep env D st f = st := by
  unfold schedStep
  rw [if_pos h]

theorem schedStep_none (env : ℕ → CapRes) (D : ℕ) (st : SchedState) (f : ℕ)
    (h : st.clock < D)
    (hp : peakOf (analyze_samples (env st.capIdx).samples) = none) :
    schedStep env D st f =
      { st with clock := st.clock + 1 + (env st.capIdx).extra, capIdx := st.capIdx + 1 } := by
  unfold schedStep
  rw [if_neg (by omega)]
  dsimp only
  rw [hp]

theorem schedStep_low (env : ℕ → CapRes) (D : ℕ) (st : SchedState) (f : ℕ) (mx : ℝ)
    (h : st.clock < D)
    (hp : peakOf (analyze_samples (env st.capIdx).samples) = some mx)
    (hmx : ¬ mx > threshold) :
    schedStep env D st f =
      { st with clock := st.clock + 1 + (env st.capIdx).extra, capIdx := st.capIdx + 1 } := by
  unfold schedStep
  rw [if_neg (by omega)]
  dsimp only
  rw [hp]
  dsimp only
  rw [if_neg hmx]

theorem schedStep_high (env : ℕ → CapRes) (D : ℕ) (st : SchedState) (f : ℕ) (mx : ℝ)
    (h : st.clock < D)
    (hp : peakOf (analyze_samples (env st.capIdx).samples) = some mx)
    (hmx : mx > threshold) :
    schedStep env D st f =
      recordDetection f mx (env st.capIdx).samples.length
        (st.clock + 1 + (env st.capIdx).extra)
        { st with clock := st.clock + 1 + (env st.capIdx).extra, capIdx := st.capIdx + 1 } := by
  unfold schedStep
  rw [if_neg (by omega)]
  dsimp only
  rw [hp]
  dsimp only
  rw [if_pos hmx]

theorem schedStep_clock_le (env : ℕ → CapRes) (D : ℕ) (st : SchedState) (f : ℕ) :
    st.clock ≤ (schedStep env D st f).clock := by
  by_cases h : D ≤ st.clock
  · rw [schedStep_skip env D st f h]
  · rcases hp : peakOf (analyze_samples (env st.capIdx).samples) with _ | mx
    · rw [schedStep_none env D st f (by omega) hp]
      show st.clock ≤ st.clock + 1 + (env st.capIdx).extra
      omega
    · by_cases hmx : mx > threshold
      · rw [schedStep_high env D st f mx (by omega) hp hmx, recordDetection_clock]
        show st.clock ≤ st.clock + 1 + (env st.capIdx).extra
        omega
      · rw [schedStep_low env D st f mx (by omega) hp hmx]
        show st.clock ≤ st.clock + 1 + (env st.capIdx).extra
        omega

theorem schedStep_clock_lt (env : ℕ → CapRes) (D : ℕ) (st : SchedState) (f : ℕ)
    (h : st.clock < D) : st.clock < (schedStep env D st f).clock := by
  rcases hp : peakOf (analyze_samples (env st.capIdx).samples) with _ | mx
  · rw [schedStep_none env D st f h hp]
    show st.clock < st.clock + 1 + (env st.capIdx).extra
    omega
  · by_cases hmx : mx > threshold
    · rw [schedStep_high env D st f mx h hp hmx, recordDetection_clock]
      show st.clock < st.clock + 1 + (env st.capIdx).extra
      omega
    · rw [schedStep_low env D st f mx h hp hmx]
      show st.clock < st.clock + 1 + (env st.capIdx).extra
      omega

theorem foldl_sched_clock_le (env : ℕ → CapRes) (D : ℕ) (l : List ℕ) :
    ∀ st : SchedState, st.clock ≤ (List.foldl (schedStep env D) st l).clock := by
  induction l with
  | nil => intro st; exact le_rfl
  | cons a t ih =>
      intro st
      rw [List.foldl_cons]
      exact le_trans (schedStep_clock_le env D st a) (ih _)

theorem runPass_clock_lt (env : ℕ → CapRes) (D : ℕ) (st : SchedState)
    (h : st.clock < D) : st.clock < (runPass env D st).clock := by
  unfold runPass
  rw [show band = 380000000 :: List.tail band by decide, List.foldl_cons]
  exact lt_of_lt_of_le (schedStep_clock_lt env D st _ h) (foldl_sched_clock_le env D _ _)

theorem runScan_eq (env : ℕ → CapRes) (D : ℕ) (st : SchedState) :
    runScan env D st =
      if st.clock < D then runScan env D (runPass env D st) else st := by
  rw [runScan]
  split
  · rfl
  · rfl

theorem runScan_invariant (env : ℕ → CapRes) (D : ℕ) (P : SchedState → Prop)
    (hpass : ∀ st, st.clock < D → P st → P (runPass env D st)) :
    ∀ (n : ℕ) (st : SchedState), D - st.clock ≤ n → P st → P (runScan env D st) := by
  intro n
  induction n with
  | zero =>
      intro st hn hP
      rw [runScan_eq, if_neg (by omega)]
      exact hP
  | succ n ih =>
      intro st hn hP
      rw [runScan_eq]
      split
      · rename_i hlt
        have hc := runPass_clock_lt env D st hlt
        exact ih _ (by omega) (hpass st hlt hP)
      · exact hP

theorem runScan_clock_ge (env : ℕ → CapRes) (D : ℕ) :
    ∀ (n : ℕ) (st : SchedState), D - st.clock ≤ n → D ≤ (runScan env D st).clock := by
  intro n
  induction n with
  | zero =>
      intro st hn
      rw [runScan_eq, if_neg (by omega)]
      omega
  | succ n ih =>
      intro st hn
      rw [runScan_eq]
      split
      · rename_i hlt
        have hc := runPass_clock_lt env D st hlt
        exact ih _ (by omega)
      · omega

theorem runScan_clock_le (env : ℕ → CapRes) (D : ℕ)
    (hx : ∀ i, (env i).extra = 0) (st : SchedState) (h0 : st.clock ≤ D) :
    (runScan env D st).clock ≤ D := by
  have hstep : ∀ (s : SchedState) (f : ℕ), s.clock ≤ D →
      (schedStep env D s f).clock ≤ D := by
    intro s f hs
    by_cases h : D ≤ s.clock
    · rw [schedStep_skip env D s f h]
      exact hs
    · rcases hp : peakOf (analyze_samples (env s.capIdx).samples) with _ | mx
      · rw [schedStep_none env D s f (by omega) hp]
        show s.clock + 1 + (env s.capIdx).extra ≤ D
        rw [hx s.capIdx]
        omega
      · by_cases hmx : mx > threshold
        · rw [schedStep_high env D s f mx (by omega) hp hmx, recordDetection_clock]
          show s.clock + 1 + (env s.capIdx).extra ≤ D
          rw [hx s.capIdx]
          omega
        · rw [schedStep_low env D s f mx (by omega) hp hmx]
          show s.clock + 1 + (env s.capIdx).extra ≤ D
          rw [hx s.capIdx]
          omega
  have hfold : ∀ (l : List ℕ) (s : SchedState), s.clock ≤ D →
      (List.foldl (schedStep env D) s l).clock ≤ D := by
    intro l
    induction l with
    | nil => intro s hs; exact hs
    | cons a t ih =>
        intro s hs
        rw [List.foldl_cons]
        exact ih _ (hstep s a hs)
  exact runScan_invariant env D (fun s => s.clock ≤ D)
    (fun s _ hP => hfold band s hP) (D - st.clock) st le_rfl h0

/-! ### Evaluating folds over the band -/

theorem foldl_sched_skip (env : ℕ → CapRes) (D : ℕ) (l : List ℕ) :
    ∀ st : SchedState, D ≤ st.clock → List.foldl (schedStep env D) st l = st := by
  induction l with
  | nil => intro st _; rfl
  | cons a t ih =>
      intro st h
      rw [List.foldl_cons, schedStep_skip env D st a h]
      exact ih st h

theorem foldl_sched_empties (env : ℕ → CapRes) (D : ℕ) (l : List ℕ) :
    ∀ st : SchedState,
      (∀ k < l.length, env (st.capIdx + k) = ⟨[], 0⟩) →
      st.clock + l.length ≤ D →
      List.foldl (schedStep env D) st l =
        { st with clock := st.clock + l.length, capIdx := st.capIdx + l.length } := by
  induction l with
  | nil =>
      intro st _ _
      show st = _
      cases st
      rfl
  | cons a t ih =>
      intro st h1 h2
      rw [List.foldl_cons]
      have he : env st.capIdx = ⟨[], 0⟩ := by
        have := h1 0 (by simp)
        simpa using this
      have hstep : schedStep env D st a =
          { st with clock := st.clock + 1, capIdx := st.capIdx + 1 } := by
        have hp : peakOf (analyze_samples (env st.capIdx).samples) = none := by
          rw [he]
          rfl
        rw [schedStep_none env D st a (by simp at h2; omega) hp, he]
        rfl
      rw [hstep]
      rw [ih _ (fun k hk => by
            have hh := h1 (k + 1) (by simp; omega)
            rw [show st.capIdx + 1 + k = st.capIdx + (k + 1) by omega]
            exact hh)
          (by simp at h2 ⊢; omega)]
      simp only [SchedState.mk.injEq, List.length_cons]
      refine ⟨by omega, by omega, by trivial, by trivial⟩

/-! ### No detection is possible from byte-valued captures -/

theorem schedStep_agg_of_bytes (env : ℕ → CapRes) (D : ℕ)
    (h : ∀ i, ∀ v ∈ (env i).samples, v ≤ 255) (st : SchedState) (f : ℕ) :
    (schedStep env D st f).freq_data_vec = st.freq_data_vec ∧
    (schedStep env D st f).freq_id_map = st.freq_id_map := by
  by_cases hc : D ≤ st.clock
  · rw [schedStep_skip env D st f hc]
    exact ⟨rfl, rfl⟩
  · rcases hp : peakOf (analyze_samples (env st.capIdx).samples) with _ | mx
    · rw [schedStep_none env D st f (by omega) hp]
      exact ⟨rfl, rfl⟩
    · have hmx : ¬ mx > threshold := by
        have := peak_lt_49 _ (h st.capIdx) mx hp
        rw [threshold]
        linarith
      rw [schedStep_low env D st f mx (by omega) hp hmx]
      exact ⟨rfl, rfl⟩

theorem runScan_agg_of_bytes (env : ℕ → CapRes) (D : ℕ)
    (h : ∀ i, ∀ v ∈ (env i).samples, v ≤ 255) :
    (runScan env D schedInit).freq_data_vec = [] ∧
    (runScan env D schedInit).freq_id_map = [] := by
  have hfold : ∀ (l : List ℕ) (s : SchedState),
      (s.freq_data_vec = [] ∧ s.freq_id_map = []) →
      ((List.foldl (schedStep env D) s l).freq_data_vec = [] ∧
       (List.foldl (schedStep env D) s l).freq_id_map = []) := by
    intro l
    induction l with
    | nil => intro s hs; exact hs
    | cons a t ih =>
        intro s hs
        rw [List.foldl_cons]
        refine ih _ ?_
        have := schedStep_agg_of_bytes env D h s a
        exact ⟨this.1.trans hs.1, this.2.trans hs.2⟩
  exact runScan_invariant env D
    (fun s => s.freq_data_vec = [] ∧ s.freq_id_map = [])
    (fun s _ hP => hfold band s hP) (D - schedInit.clock) schedInit le_rfl ⟨rfl, rfl⟩

/-! ### Instant-mode step behaviour -/

theorem instStep_none (env : ℕ → List ℕ) (st : InstState) (f : ℕ)
    (hp : peakOf (analyze_samples (env f)) = none) : instStep env st f = st := by
  unfold instStep
  dsimp only
  rw [hp]

theorem instStep_low (env : ℕ → List ℕ) (st : InstState) (f : ℕ) (mx : ℝ)
    (hp : peakOf (analyze_samples (env f)) = some mx)
    (hmx : ¬ mx > threshold) : instStep env st f = st := by
  unfold instStep
  dsimp only
  rw [hp]
  dsimp only
  rw [if_neg hmx]

theorem instStep_high (env : ℕ → List ℕ) (st : InstState) (f : ℕ) (mx : ℝ)
    (hp : peakOf (analyze_samples (env f)) = some mx)
    (hmx : mx > threshold) :
    instStep env st f =
      ⟨st.results ++ [(toString st.count, instDetJ f mx (env f).length)],
       st.count + 1⟩ := by
  unfold instStep
  dsimp only
  rw [hp]
  dsimp only
  rw [if_pos hmx]

theorem instStep_noqual (env : ℕ → List ℕ) (st : InstState) (f : ℕ)
    (h : ¬ qualifies (env f)) : instStep env st f = st := by
  rcases hp : peakOf (analyze_samples (env f)) with _ | mx
  · exact instStep_none env st f hp
  · exact instStep_low env st f mx hp (fun hgt => h ⟨mx, hp, hgt⟩)

theorem foldl_inst_noqual (env : ℕ → List ℕ) (l : List ℕ) :
    ∀ st : InstState, (∀ f ∈ l, ¬ qualifies (env f)) →
      List.foldl (instStep env) st l = st := by
  induction l with
  | nil => intro st _; rfl
  | cons a t ih =>
      intro st h
      rw [List.foldl_cons, instStep_noqual env st a (h a (by simp))]
      exact ih st (fun f hf => h f (by simp [hf]))

theorem run_instant_noqual (env : ℕ → List ℕ)
    (h : ∀ f ∈ band, ¬ qualifies (env f)) :
    run_instant_scan env = [("1", placeholderJ)] := by
  unfold run_instant_scan
  rw [foldl_inst_noqual env band ⟨[], 1⟩ h]
  dsimp only
  rw [if_pos rfl]

/-! ### Field and list helpers -/

theorem rangeStr_ne_empty (t : ℕ) : rangeStr t ≠ "" := by
  unfold rangeStr
  intro hc
  have hl := congrArg String.length hc
  rw [String.length_append, String.length_append] at hl
  have h1 : ("-" : String).length = 1 := rfl
  have h0 : ("" : String).length = 0 := rfl
  omega

theorem lookup_setPairs_ne (fields : List (String × JVal)) (k k' : String) (v : JVal)
    (h : k ≠ k') : (setPairs fields k v).lookup k' = fields.lookup k' := by
  induction fields with
  | nil =>
      have hb : (k' == k) = false := beq_eq_false_iff_ne.2 (Ne.symm h)
      simp [setPairs, List.lookup, hb]
  | cons p rest ih =>
      rcases p with ⟨k0, v0⟩
      by_cases h0 : k0 = k
      · subst h0
        simp only [setPairs, if_pos rfl]
        have hb : (k' == k0) = false := beq_eq_false_iff_ne.2 (Ne.symm h)
        simp [List.lookup, hb]
      · simp only [setPairs, if_neg h0]
        by_cases hb : (k' == k0) = true
        · simp [List.lookup, hb]
        · have hb2 : (k' == k0) = false := by
            revert hb
            cases k' == k0 <;> simp
          simp [List.lookup, hb2, ih]

theorem getField_setField_ne (j : JVal) (k k' : String) (v : JVal) (h : k ≠ k') :
    (j.setField k v).getField k' = j.getField k' := by
  cases j with
  | num x => rfl
  | str s => rfl
  | obj fields => exact lookup_setPairs_ne fields k k' v h

theorem getD_set_self (l : List JVal) (i : ℕ) (v d : JVal) (h : i < l.length) :
    (l.set i v).getD i d = v := by
  induction l generalizing i with
  | nil => simp at h
  | cons a t ih =>
      cases i with
      | zero => rfl
      | succ n =>
          show (t.set n v).getD n d = v
          exact ih n (by simp at h; omega)

theorem getD_concat_self (l : List JVal) (a d : JVal) :
    (l ++ [a]).getD l.length d = a := by
  induction l with
  | nil => rfl
  | cons b t ih => exact ih

theorem set_concat_self (l : List JVal) (a b : JVal) :
    (l ++ [a]).set l.length b = l ++ [b] := by
  induction l with
  | nil => rfl
  | cons c t ih =>
      show c :: (t ++ [a]).set t.length b = c :: (t ++ [b])
      rw [ih]

theorem schedDetJ_durations (f : ℕ) (mx : ℝ) (n ct : ℕ) :
    (schedDetJ f mx n ct).getField "tetra_durations" = some (.str (rangeStr ct)) := rfl

theorem appendDuration_schedDetJ (f : ℕ) (mx : ℝ) (n ct : ℕ) :
    appendDuration (schedDetJ f mx n ct) ct =
      JVal.obj [("freq", .num ((f : ℝ) / 1000000)), ("strength", .num mx),
        ("sample_count", .num (n : ℝ)),
        ("tetra_durations", .str (rangeStr ct ++ "," ++ rangeStr ct))] := by
  unfold appendDuration
  rw [schedDetJ_durations]
  dsimp only [Option.bind, JVal.asStr, Option.getD]
  rw [if_neg (rangeStr_ne_empty ct)]
  rfl

/-! ### Instant-mode entry shapes -/

theorem instDetJ_ne_placeholder (f : ℕ) (mx : ℝ) (n : ℕ) :
    instDetJ f mx n ≠ placeholderJ := by
  intro hc
  have h1 : (instDetJ f mx n).getField "strength" = some (.num mx) := rfl
  have h2 : placeholderJ.getField "strength" = none := rfl
  rw [hc, h2] at h1
  exact Option.noConfusion h1

theorem instStep_results_shape (env : ℕ → List ℕ) (st : InstState) (f : ℕ) :
    (instStep env st f).results = st.results ∨
    ∃ mx, (instStep env st f).results =
      st.results ++ [(toString st.count, instDetJ f mx (env f).length)] := by
  rcases hp : peakOf (analyze_samples (env f)) with _ | mx
  · rw [instStep_none env st f hp]
    exact Or.inl rfl
  · by_cases hmx : mx > threshold
    · rw [instStep_high env st f mx hp hmx]
      exact Or.inr ⟨mx, rfl⟩
    · rw [instStep_low env st f mx hp hmx]
      exact Or.inl rfl

theorem foldl_inst_entries (env : ℕ → List ℕ) (l : List ℕ) :
    ∀ st : InstState, (∀ kv ∈ st.results, kv.2 ≠ placeholderJ) →
      ∀ kv ∈ (List.foldl (instStep env) st l).results, kv.2 ≠ placeholderJ := by
  induction l with
  | nil => intro st hst; exact hst
  | cons a t ih =>
      intro st hst
      rw [List.foldl_cons]
      refine ih _ ?_
      rcases instStep_results_shape env st a with hsh | ⟨mx, hsh⟩
      · rw [hsh]; exact hst
      · rw [hsh]
        intro kv hkv
        rcases List.mem_append.1 hkv with hkv | hkv
        · exact hst kv hkv
        · have : kv = (toString st.count, instDetJ a mx (env a).length) := by
            simpa using hkv
          rw [this]
          exact instDetJ_ne_placeholder a mx (env a).length

theorem foldl_inst_ne_nil (env : ℕ → List ℕ) (l : List ℕ) :
    ∀ st : InstState, st.results ≠ [] →
      (List.foldl (instStep env) st l).results ≠ [] := by
  induction l with
  | nil => intro st h; exact h
  | cons a t ih =>
      intro st h
      rw [List.foldl_cons]
      refine ih _ ?_
      rcases instStep_results_shape env st a with hsh | ⟨mx, hsh⟩
      · rw [hsh]; exact h
      · rw [hsh]
        simp

theorem instStep_qual (env : ℕ → List ℕ) (st : InstState) (f : ℕ)
    (h : qualifies (env f)) :
    ∃ e, (instStep env st f).results = st.results ++ [e] := by
  rcases h with ⟨mx, hp, hmx⟩
  rw [instStep_high env st f mx hp hmx]
  exact ⟨_, rfl⟩

theorem foldl_inst_qual_ne_nil (env : ℕ → List ℕ) (l : List ℕ) :
    ∀ st : InstState, (∃ f ∈ l, qualifies (env f)) →
      (List.foldl (instStep env) st l).results ≠ [] := by
  induction l with
  | nil => intro st h; simp at h
  | cons a t ih =>
      intro st h
      rw [List.foldl_cons]
      rcases h with ⟨f, hf, hq⟩
      rcases List.mem_cons.1 hf with rfl | hf
      · rcases instStep_qual env st f hq with ⟨e, he⟩
        refine foldl_inst_ne_nil env t _ ?_
        rw [he]
        simp
      · exact ih _ ⟨f, hf, hq⟩

/-! ### Concrete scheduled runs -/

theorem band_head_tail : band = 380000000 :: List.tail band := by decide

theorem step0_cexEnvA :
    schedStep cexEnvA 1 schedInit 380000000 =
      recordDetection 380000000 (sampleVal 1000) 1 1 ⟨1, 1, [], []⟩ := by
  have hp : peakOf (analyze_samples (cexEnvA schedInit.capIdx).samples) =
      some (sampleVal 1000) := rfl
  rw [schedStep_high cexEnvA 1 schedInit 380000000 (sampleVal 1000) (by decide) hp
      (by rw [threshold, sampleVal_1000]; norm_num)]
  rfl

theorem recdet_first_380 :
    recordDetection 380000000 (sampleVal 1000) 1 1 ⟨1, 1, [], []⟩ =
      ⟨1, 1, [detRecA], [(380000000, 0)]⟩ := by
  rfl

theorem runScan_cexEnvA :
    runScan cexEnvA 1 schedInit = ⟨1, 1, [detRecA], [(380000000, 0)]⟩ := by
  rw [runScan_eq, if_pos (by decide)]
  have hpass : runPass cexEnvA 1 schedInit = ⟨1, 1, [detRecA], [(380000000, 0)]⟩ := by
    unfold runPass
    rw [band_head_tail, List.foldl_cons, step0_cexEnvA, recdet_first_380]
    exact foldl_sched_skip cexEnvA 1 (List.tail band) _ (Nat.le_refl 1)
  rw [hpass, runScan_eq, if_neg (by decide)]

theorem pass1_cexEnvB :
    runPass cexEnvB 42 schedInit = ⟨41, 41, [detRecA], [(380000000, 0)]⟩ := by
  unfold runPass
  rw [band_head_tail, List.foldl_cons]
  have hstep : schedStep cexEnvB 42 schedInit 380000000 =
      recordDetection 380000000 (sampleVal 1000) 1 1 ⟨1, 1, [], []⟩ := by
    have hp : peakOf (analyze_samples (cexEnvB schedInit.capIdx).samples) =
        some (sampleVal 1000) := rfl
    rw [schedStep_high cexEnvB 42 schedInit 380000000 (sampleVal 1000) (by decide) hp
        (by rw [threshold, sampleVal_1000]; norm_num)]
    rfl
  rw [hstep, recdet_first_380]
  rw [foldl_sched_empties cexEnvB 42 (List.tail band) ⟨1, 1, [detRecA], [(380000000, 0)]⟩
      (by decide) (by decide)]
  rfl

theorem step41_cexEnvB :
    schedStep cexEnvB 42 ⟨41, 41, [detRecA], [(380000000, 0)]⟩ 380000000 =
      recordDetection 380000000 (max (sampleVal 10000) (sampleVal 10000)) 2 42
        ⟨42, 42, [detRecA], [(380000000, 0)]⟩ := by
  have hp : peakOf (analyze_samples
      (cexEnvB (⟨41, 41, [detRecA], [(380000000, 0)]⟩ : SchedState).capIdx).samples) =
      some (max (sampleVal 10000) (sampleVal 10000)) := rfl
  rw [schedStep_high cexEnvB 42 ⟨41, 41, [detRecA], [(380000000, 0)]⟩ 380000000
      (max (sampleVal 10000) (sampleVal 10000)) (by decide) hp
      (by rw [threshold, sampleVal_10000, max_self]; norm_num)]
  rfl

theorem recdet_second_380 :
    recordDetection 380000000 (max (sampleVal 10000) (sampleVal 10000)) 2 42
      ⟨42, 42, [detRecA], [(380000000, 0)]⟩ =
      ⟨42, 42, [detRecB], [(380000000, 0)]⟩ := by
  rfl

theorem runScan_cexEnvB :
    runScan cexEnvB 42 schedInit = ⟨42, 42, [detRecB], [(380000000, 0)]⟩ := by
  rw [runScan_eq, if_pos (by decide), pass1_cexEnvB, runScan_eq, if_pos (by decide)]
  have hpass2 : runPass cexEnvB 42 ⟨41, 41, [detRecA], [(380000000, 0)]⟩ =
      ⟨42, 42, [detRecB], [(380000000, 0)]⟩ := by
    unfold runPass
    rw [band_head_tail, List.foldl_cons, step41_cexEnvB, recdet_second_380]
    exact foldl_sched_skip cexEnvB 42 (List.tail band) _ (Nat.le_refl 42)
  rw [hpass2, runScan_eq, if_neg (by decide)]

/-! ### Concrete instant run -/

theorem not_qualifies_nil : ¬ qualifies ([] : List ℕ) := by
  rintro ⟨mx, hp, _⟩
  simp [analyze_samples, peakOf] at hp

theorem run_oneQual :
    run_instant_scan oneQualInstEnv = [("1", instDetJ 380000000 (sampleVal 1000) 1)] := by
  unfold run_instant_scan
  rw [band_head_tail, List.foldl_cons]
  have h1 : instStep oneQualInstEnv ⟨[], 1⟩ 380000000 =
      ⟨[("1", instDetJ 380000000 (sampleVal 1000) 1)], 2⟩ := by
    have hp : peakOf (analyze_samples (oneQualInstEnv 380000000)) =
        some (sampleVal 1000) := rfl
    rw [instStep_high oneQualInstEnv ⟨[], 1⟩ 380000000 (sampleVal 1000) hp
        (by rw [threshold, sampleVal_1000]; norm_num)]
    rfl
  rw [h1]
  have hall : ∀ f ∈ List.tail band, f ≠ 380000000 := by decide
  rw [foldl_inst_noqual oneQualInstEnv (List.tail band) _
      (fun f hf => by
        rw [show oneQualInstEnv f = [] from by simp [oneQualInstEnv, hall f hf]]
        exact not_qualifies_nil)]
  dsimp only
  rw [if_neg (by simp)]

theorem getField_appendDuration_ne (j : JVal) (ct : ℕ) (k : String)
    (h : "tetra_durations" ≠ k) :
    (appendDuration j ct).getField k = j.getField k :=
  getField_setField_ne j "tetra_durations" k _ h

/-! ### The claims -/

/-- Claim C1 (code bug).  The claim says the first qualifying event for a
frequency creates a record whose duration string is exactly one range
`"t-(t+1)"`.  In the code the record is created with `"t-(t+1)"` and then the
unconditional append step immediately duplicates it: in the concrete run
`cexEnvA` (`scan_duration = 1`, single qualifying capture recorded at elapsed
second 1) the exported duration string is `"1-2,1-2"`, two copies of the
single range, not `rangeStr 1 = "1-2"`. -/
theorem C1_first_event_duration_duplicated :
    run_scan_over_duration cexEnvA 1 =
      [("0", JVal.obj [("freq", JVal.num 380), ("strength", JVal.num 60),
        ("sample_count", JVal.num 1), ("tetra_durations", JVal.str "1-2,1-2")])] ∧
    rangeStr 1 = "1-2" ∧ ("1-2,1-2" : String) ≠ "1-2" := by
  refine ⟨?_, rfl, by decide⟩
  unfold run_scan_over_duration
  rw [runScan_cexEnvA]
  show [("0", detRecA)] = _
  unfold detRecA
  norm_num [sampleVal_1000]

/-- Claim C2, counterexample.  In the run `cexEnvB` frequency 380 MHz
qualifies twice: first with peak 60 and one sample, then (most recently) with
peak `sampleVal 10000 = 80` and two samples.  The exported record keeps
`strength = 60` and `sample_count = 1` from the FIRST event, not the claimed
last-write-wins values 80 and 2. -/
theorem C2_last_write_cex :
    run_scan_over_duration cexEnvB 42 =
      [("0", JVal.obj [("freq", JVal.num 380), ("strength", JVal.num 60),
        ("sample_count", JVal.num 1),
        ("tetra_durations", JVal.str "1-2,1-2,42-43")])] ∧
    sampleVal 10000 = 80 ∧
    List.length [10000, 10000] = 2 ∧
    (60 : ℝ) ≠ 80 ∧ (1 : ℝ) ≠ 2 := by
  refine ⟨?_, sampleVal_10000, rfl, by norm_num, by norm_num⟩
  unfold run_scan_over_duration
  rw [runScan_cexEnvB]
  show [("0", detRecB)] = _
  unfold detRecB
  norm_num [sampleVal_1000]

/-- Claim C2, amended: scheduled mode is first-write-wins for `strength` and
`sample_count` — on a subsequent qualifying event for a frequency that
already has a record, those two fields are left unchanged (only
`tetra_durations` is rewritten), so the export reflects the FIRST qualifying
capture. -/
theorem C2_first_write_wins (env : ℕ → CapRes) (D : ℕ) (st : SchedState) (f : ℕ)
    (mx : ℝ) (idx : ℕ)
    (h : st.clock < D)
    (hp : peakOf (analyze_samples (env st.capIdx).samples) = some mx)
    (hq : mx > threshold)
    (hidx : st.freq_id_map.lookup f = some idx)
    (hlen : idx < st.freq_data_vec.length) :
    ((schedStep env D st f).freq_data_vec.getD idx (JVal.obj [])).getField "strength" =
      (st.freq_data_vec.getD idx (JVal.obj [])).getField "strength" ∧
    ((schedStep env D st f).freq_data_vec.getD idx (JVal.obj [])).getField "sample_count" =
      (st.freq_data_vec.getD idx (JVal.obj [])).getField "sample_count" ∧
    (schedStep env D st f).freq_data_vec.length = st.freq_data_vec.length := by
  rw [schedStep_high env D st f mx h hp hq]
  unfold recordDetection
  dsimp only
  rw [hidx]
  dsimp only
  rw [getD_set_self _ _ _ _ hlen]
  refine ⟨?_, ?_, by rw [List.length_set]⟩
  · exact getField_appendDuration_ne _ _ "strength" (by decide)
  · exact getField_appendDuration_ne _ _ "sample_count" (by decide)

/-- Witness for the amended C2 at a concrete state: frequency 380 MHz already
holds `witRec` at index 0 and qualifies again with peak 80. -/
theorem C2_first_write_wins_witness :
    ((schedStep oneCapEnv 5 witState 380000000).freq_data_vec.getD 0
        (JVal.obj [])).getField "strength" =
      ((witState.freq_data_vec).getD 0 (JVal.obj [])).getField "strength" ∧
    ((schedStep oneCapEnv 5 witState 380000000).freq_data_vec.getD 0
        (JVal.obj [])).getField "sample_count" =
      ((witState.freq_data_vec).getD 0 (JVal.obj [])).getField "sample_count" ∧
    (schedStep oneCapEnv 5 witState 380000000).freq_data_vec.length =
      witState.freq_data_vec.length :=
  C2_first_write_wins oneCapEnv 5 witState 380000000 (sampleVal 10000) 0
    (by decide) rfl (by rw [threshold, sampleVal_10000]; norm_num) rfl (by decide)

/-- Claim C3: every estimate of a byte-valued capture is at most
`20 * log10 255 < 49`, so no capture of the real u8 stream can qualify:
instant mode exports exactly the placeholder and scheduled mode exports an
empty mapping, for every possible sample stream. -/
theorem C3_no_detection_possible (envI : ℕ → List ℕ) (envS : ℕ → CapRes)
    (scan_duration : ℕ)
    (hI : ∀ f, ∀ v ∈ envI f, v ≤ 255)
    (hS : ∀ i, ∀ v ∈ (envS i).samples, v ≤ 255) :
    (∀ s : List ℕ, (∀ v ∈ s, v ≤ 255) →
      ∀ x ∈ analyze_samples s, x ≤ 20 * Real.logb 10 255) ∧
    20 * Real.logb 10 255 < 49 ∧
    run_instant_scan envI = [("1", placeholderJ)] ∧
    run_scan_over_duration envS scan_duration = [] := by
  refine ⟨?_, twenty_logb_255_lt_49, ?_, ?_⟩
  · intro s hs x hx
    unfold analyze_samples at hx
    rcases List.mem_map.1 hx with ⟨v, hv, rfl⟩
    exact sampleVal_le_255 v (hs v hv)
  · exact run_instant_noqual envI (fun f _ => no_qualify_of_bytes (envI f) (hI f))
  · unfold run_scan_over_duration
    rw [(runScan_agg_of_bytes envS scan_duration hS).1]
    rfl

/-- Witness for C3 at all-empty capture streams. -/
theorem C3_no_detection_possible_witness :
    run_instant_scan emptyInstEnv = [("1", placeholderJ)] ∧
    run_scan_over_duration emptyCapEnv 3 = [] := by
  have h := C3_no_detection_possible emptyInstEnv emptyCapEnv 3
    (fun f v hv => by simp [emptyInstEnv] at hv)
    (fun i v hv => by simp [emptyCapEnv] at hv)
  exact ⟨h.2.2.1, h.2.2.2⟩

/-- Claim C4, counterexample.  In the run `cexEnvA` the only qualifying
capture BEGAN at elapsed second 0 and completed at second 1; the claim says
the recorded range is `[t, t+1)` with `t` measured when the capture began,
which would make every recorded range `rangeStr 0 = "0-1"`.  The code instead
records ranges built from `t = 1`, the elapsed seconds measured after the
capture completed. -/
theorem C4_capture_begin_cex :
    (run_scan_over_duration cexEnvA 1).map
        (fun kv => kv.2.getField "tetra_durations") =
      [some (JVal.str "1-2,1-2")] ∧
    rangeStr 0 = "0-1" ∧
    ("1-2,1-2" : String) ≠ "0-1" ∧ ("1-2,1-2" : String) ≠ "0-1,0-1" := by
  refine ⟨?_, rfl, by decide, by decide⟩
  unfold run_scan_over_duration
  rw [runScan_cexEnvA]
  rfl

/-- Claim C4, amended: the elapsed-time range recorded for a qualifying event
is `[t, t+1)` where `t` is the whole number of seconds since the repeating
phase started measured at the moment the capture COMPLETED (the clock after
the 1-plus-extra-second capture, `st.clock + 1 + extra`), not at the moment
the capture began.  Stated for a first qualifying event; the created record's
range (duplicated by the append step, see C1) is built from that completion
time. -/
theorem C4_event_time_after_capture (env : ℕ → CapRes) (D : ℕ) (st : SchedState)
    (f : ℕ) (mx : ℝ)
    (h : st.clock < D)
    (hp : peakOf (analyze_samples (env st.capIdx).samples) = some mx)
    (hq : mx > threshold)
    (hfresh : st.freq_id_map.lookup f = none) :
    (schedStep env D st f).freq_data_vec =
      st.freq_data_vec ++
        [JVal.obj [("freq", JVal.num ((f : ℝ) / 1000000)), ("strength", JVal.num mx),
          ("sample_count", JVal.num ((env st.capIdx).samples.length : ℝ)),
          ("tetra_durations", JVal.str
            (rangeStr (st.clock + 1 + (env st.capIdx).extra) ++ "," ++
             rangeStr (st.clock + 1 + (env st.capIdx).extra)))]] := by
  rw [schedStep_high env D st f mx h hp hq]
  unfold recordDetection
  dsimp only
  rw [hfresh]
  dsimp only
  rw [getD_concat_self, appendDuration_schedDetJ, set_concat_self]

/-- Witness for the amended C4: the first qualifying capture of `cexEnvA`
runs from elapsed second 0 to second 1 and its recorded ranges use `t = 1`. -/
theorem C4_event_time_after_capture_witness :
    (schedStep cexEnvA 1 schedInit 380000000).freq_data_vec =
      schedInit.freq_data_vec ++
        [JVal.obj [("freq", JVal.num (((380000000 : ℕ) : ℝ) / 1000000)),
          ("strength", JVal.num (sampleVal 1000)),
          ("sample_count", JVal.num ((cexEnvA schedInit.capIdx).samples.length : ℝ)),
          ("tetra_durations", JVal.str
            (rangeStr (schedInit.clock + 1 + (cexEnvA schedInit.capIdx).extra) ++ "," ++
             rangeStr (schedInit.clock + 1 + (cexEnvA schedInit.capIdx).extra)))]] :=
  C4_event_time_after_capture cexEnvA 1 schedInit 380000000 (sampleVal 1000)
    (by decide) rfl (by rw [threshold, sampleVal_1000]; norm_num) rfl

/-- Claim C5: the repeating phase never stops with less than `scan_duration`
elapsed seconds; with 1-second captures it stops at most one capture
duration past the budget; the budget is checked both before each new pass
(the `while` condition: a state already over budget is returned unchanged)
and before each individual frequency's capture (a step of a state over
budget does nothing), so the sweep can end mid-pass. -/
theorem C5_budget_bounds (env : ℕ → CapRes) (scan_duration : ℕ) :
    scan_duration ≤ (runScan env scan_duration schedInit).clock ∧
    ((∀ i, (env i).extra = 0) →
      (runScan env scan_duration schedInit).clock ≤ scan_duration + 1) ∧
    (∀ (st : SchedState) (f : ℕ), scan_duration ≤ st.clock →
      schedStep env scan_duration st f = st) ∧
    (∀ st : SchedState, scan_duration ≤ st.clock →
      runScan env scan_duration st = st) := by
  refine ⟨?_, ?_, ?_, ?_⟩
  · exact runScan_clock_ge env scan_duration (scan_duration - schedInit.clock)
      schedInit le_rfl
  · intro hx
    have := runScan_clock_le env scan_duration hx schedInit (Nat.zero_le _)
    omega
  · exact fun st f h => schedStep_skip env scan_duration st f h
  · intro st h
    rw [runScan_eq, if_neg (by omega)]

/-- Witness for C5 at a concrete adapter and budget. -/
theorem C5_budget_bounds_witness :
    2 ≤ (runScan emptyCapEnv 2 schedInit).clock ∧
    (runScan emptyCapEnv 2 schedInit).clock ≤ 2 + 1 ∧
    schedStep emptyCapEnv 2 ⟨5, 0, [], []⟩ 380000000 = ⟨5, 0, [], []⟩ ∧
    runScan emptyCapEnv 2 ⟨5, 0, [], []⟩ = ⟨5, 0, [], []⟩ := by
  have h := C5_budget_bounds emptyCapEnv 2
  exact ⟨h.1, h.2.1 (fun i => rfl), h.2.2.1 ⟨5, 0, [], []⟩ 380000000 (by decide),
         h.2.2.2 ⟨5, 0, [], []⟩ (by decide)⟩

/-- Claim C6: the analyzer is a pure length-preserving map; element `i` of
the output is `20 * log10 v` for a positive input byte `v` and `0.0` for a
zero byte; `analyze [] = []`, `analyze [0] = [0.0]` and `analyze [100]` is
exactly `[40.0]` in the real-valued model (hence approximately `[40.0]`). -/
theorem C6_analyze_spec :
    (∀ s : List ℕ, (analyze_samples s).length = s.length) ∧
    (∀ (s : List ℕ) (i : ℕ), (analyze_samples s)[i]? = (s[i]?).map sampleVal) ∧
    (∀ v : ℕ, 0 < v → sampleVal v = 20 * Real.logb 10 (v : ℝ)) ∧
    sampleVal 0 = 0 ∧
    analyze_samples [] = [] ∧
    analyze_samples [0] = [0] ∧
    analyze_samples [100] = [40] := by
  have h0 : sampleVal 0 = 0 := by
    unfold sampleVal
    rw [if_neg (by norm_num)]
  refine ⟨?_, ?_, ?_, h0, rfl, ?_, ?_⟩
  · intro s
    simp [analyze_samples]
  · intro s i
    simp [analyze_samples]
  · intro v hv
    unfold sampleVal
    rw [if_pos (by exact_mod_cast hv)]
  · show [sampleVal 0] = [0]
    rw [h0]
  · show [sampleVal 100] = [40]
    rw [sampleVal_100]

/-- Witness for C6 discharging the positivity hypothesis at `v = 100`. -/
theorem C6_analyze_spec_witness :
    (0 : ℕ) < 100 ∧ sampleVal 100 = 20 * Real.logb 10 ((100 : ℕ) : ℝ) :=
  ⟨by decide, C6_analyze_spec.2.2.1 100 (by decide)⟩

/-- Claim C7: the detection threshold is strict in both modes.  The boundary
peak `threshold = 49.0` does not qualify (the comparison is `>`), and a
capture with extracted peak `mx` is recorded as a detection when
`mx > threshold` and leaves the aggregator untouched otherwise — in instant
mode the step appends an entry and bumps the counter exactly when
`mx > threshold`, and in scheduled mode the step passes the event to
`recordDetection` exactly when `mx > threshold`. -/
theorem C7_strict_threshold :
    ¬ (threshold > threshold) ∧
    (∀ (env : ℕ → List ℕ) (st : InstState) (f : ℕ) (mx : ℝ),
      peakOf (analyze_samples (env f)) = some mx →
      ((mx > threshold → instStep env st f =
          ⟨st.results ++ [(toString st.count, instDetJ f mx (env f).length)],
           st.count + 1⟩) ∧
       (¬ mx > threshold → instStep env st f = st))) ∧
    (∀ (env : ℕ → CapRes) (D : ℕ) (st : SchedState) (f : ℕ) (mx : ℝ),
      st.clock < D →
      peakOf (analyze_samples (env st.capIdx).samples) = some mx →
      ((mx > threshold → schedStep env D st f =
          recordDetection f mx (env st.capIdx).samples.length
            (st.clock + 1 + (env st.capIdx).extra)
            { st with clock := st.clock + 1 + (env st.capIdx).extra,
                      capIdx := st.capIdx + 1 }) ∧
       (¬ mx > threshold → schedStep env D st f =
          { st with clock := st.clock + 1 + (env st.capIdx).extra,
                    capIdx := st.capIdx + 1 }))) := by
  refine ⟨lt_irrefl _, ?_, ?_⟩
  · intro env st f mx hp
    exact ⟨fun hq => instStep_high env st f mx hp hq,
           fun hq => instStep_low env st f mx hp hq⟩
  · intro env D st f mx h hp
    exact ⟨fun hq => schedStep_high env D st f mx h hp hq,
           fun hq => schedStep_low env D st f mx h hp hq⟩

/-- Witness for C7 at concrete qualifying captures in both modes. -/
theorem C7_strict_threshold_witness :
    ¬ (threshold > threshold) ∧
    instStep oneQualInstEnv ⟨[], 1⟩ 380000000 =
      ⟨[(toString 1, instDetJ 380000000 (sampleVal 1000)
          (oneQualInstEnv 380000000).length)], 2⟩ ∧
    schedStep cexEnvA 1 schedInit 380000000 =
      recordDetection 380000000 (sampleVal 1000)
        (cexEnvA schedInit.capIdx).samples.length
        (schedInit.clock + 1 + (cexEnvA schedInit.capIdx).extra)
        { schedInit with clock := schedInit.clock + 1 + (cexEnvA schedInit.capIdx).extra,
                         capIdx := schedInit.capIdx + 1 } := by
  refine ⟨C7_strict_threshold.1, ?_, ?_⟩
  · exact (C7_strict_threshold.2.1 oneQualInstEnv ⟨[], 1⟩ 380000000
      (sampleVal 1000) rfl).1 (by rw [threshold, sampleVal_1000]; norm_num)
  · exact (C7_strict_threshold.2.2 cexEnvA 1 schedInit 380000000
      (sampleVal 1000) (by decide) rfl).1 (by rw [threshold, sampleVal_1000]; norm_num)

/-- Claim C8: an instant sweep with zero qualifying events exports exactly
the single placeholder entry under key "1"; when at least one event
qualifies, no exported entry is the placeholder record. -/
theorem C8_placeholder (env : ℕ → List ℕ) :
    ((∀ f ∈ band, ¬ qualifies (env f)) →
      run_instant_scan env = [("1", placeholderJ)]) ∧
    ((∃ f ∈ band, qualifies (env f)) →
      ∀ kv ∈ run_instant_scan env, kv.2 ≠ placeholderJ) := by
  constructor
  · exact run_instant_noqual env
  · intro hex kv hkv
    have hne := foldl_inst_qual_ne_nil env band ⟨[], 1⟩ hex
    have hrun : run_instant_scan env =
        (List.foldl (instStep env) ⟨[], 1⟩ band).results := by
      unfold run_instant_scan
      dsimp only
      rw [if_neg hne]
    rw [hrun] at hkv
    exact foldl_inst_entries env band ⟨[], 1⟩ (by intro kv2 h2; simp at h2) kv hkv

/-- Witness for C8: an all-quiet band exports the placeholder, and a band
with one qualifying frequency exports no placeholder entry. -/
theorem C8_placeholder_witness :
    run_instant_scan emptyInstEnv = [("1", placeholderJ)] ∧
    instDetJ 380000000 (sampleVal 1000) 1 ≠ placeholderJ := by
  constructor
  · exact (C8_placeholder emptyInstEnv).1
      (fun f _ => by
        rw [show emptyInstEnv f = [] from rfl]
        exact not_qualifies_nil)
  · exact (C8_placeholder oneQualInstEnv).2
      ⟨380000000, by decide,
       ⟨sampleVal 1000, rfl, by rw [threshold, sampleVal_1000]; norm_num⟩⟩
      ("1", instDetJ 380000000 (sampleVal 1000) 1)
      (by rw [run_oneQual]; exact List.mem_singleton.2 rfl)

/-- Claim C9: an empty capture yields an empty estimate sequence and no peak
(`max_by` of nothing), records no detection and is not a failure: the instant
step leaves its state unchanged, and the scheduled step leaves both
aggregator containers unchanged while the sweep continues (the model is a
total function, matching the code, which handles the `None` peak without
panicking). -/
theorem C9_empty_capture :
    analyze_samples [] = [] ∧
    peakOf (analyze_samples []) = none ∧
    (∀ (env : ℕ → List ℕ) (st : InstState) (f : ℕ), env f = [] →
      instStep env st f = st) ∧
    (∀ (env : ℕ → CapRes) (D : ℕ) (st : SchedState) (f : ℕ),
      (env st.capIdx).samples = [] →
      (schedStep env D st f).freq_data_vec = st.freq_data_vec ∧
      (schedStep env D st f).freq_id_map = st.freq_id_map) := by
  refine ⟨rfl, rfl, ?_, ?_⟩
  · intro env st f he
    refine instStep_none env st f ?_
    rw [he]
    rfl
  · intro env D st f he
    by_cases h : D ≤ st.clock
    · rw [schedStep_skip env D st f h]
      exact ⟨rfl, rfl⟩
    · rw [schedStep_none env D st f (by omega) (by rw [he]; rfl)]
      exact ⟨rfl, rfl⟩

/-- Witness for C9 at empty captures in both modes. -/
theorem C9_empty_capture_witness :
    instStep emptyInstEnv ⟨[], 1⟩ 380000000 = ⟨[], 1⟩ ∧
    (schedStep emptyCapEnv 5 schedInit 380000000).freq_data_vec =
      schedInit.freq_data_vec ∧
    (schedStep emptyCapEnv 5 schedInit 380000000).freq_id_map =
      schedInit.freq_id_map :=
  ⟨C9_empty_capture.2.2.1 emptyInstEnv ⟨[], 1⟩ 380000000 rfl,
   (C9_empty_capture.2.2.2 emptyCapEnv 5 schedInit 380000000 rfl).1,
   (C9_empty_capture.2.2.2 emptyCapEnv 5 schedInit 380000000 rfl).2⟩

/-- Claim C10: instant mode is deterministic in its input.  The instant
sweep's export is a function of the per-frequency capture results alone (its
embedding takes no clock or other input), so two runs against adapters that
return the same fixed byte sequence for every frequency produce identical
exported mappings: same ids, same id-to-record assignment and ordering, same
field values. -/
theorem C10_instant_deterministic (envA envB : ℕ → List ℕ)
    (h : ∀ f, envA f = envB f) :
    run_instant_scan envA = run_instant_scan envB := by
  have hfold : ∀ (l : List ℕ) (st : InstState),
      List.foldl (instStep envA) st l = List.foldl (instStep envB) st l := by
    intro l
    induction l with
    | nil => intro st; rfl
    | cons a t ih =>
        intro st
        rw [List.foldl_cons, List.foldl_cons]
        have hstep : instStep envA st a = instStep envB st a := by
          unfold instStep
          rw [h a]
        rw [hstep, ih]
  unfold run_instant_scan
  rw [hfold band ⟨[], 1⟩]

/-- Witness for C10: two syntactically different but pointwise-equal
adapters give the same export. -/
theorem C10_instant_deterministic_witness :
    run_instant_scan emptyInstEnv =
      run_instant_scan (fun f => if f = 0 then [] else []) :=
  C10_instant_deterministic emptyInstEnv (fun f => if f = 0 then [] else [])
    (fun f => by by_cases h : f = 0 <;> simp [emptyInstEnv, h])
